import Mathlib

/- Verification development for the Live Interview Mode audio pipeline of the
   interview-coder application (LiveInterviewMode React component, enhanced
   variant unless noted otherwise).  The embedding models:
   - the Gemini response parsing and confidence heuristic of processAudioChunk,
   - the observable effect sequence of one processAudioChunk run,
   - the clamped activeProcessingCount updates,
   - the recording-session loop with its admission guard (mediaRecorder.onstop)
     and the finally-block queue cleanup,
   - the staggered presenter (updateResponsesWithDelay) with its timers and
     the flush policy on the visible response list.
   Strings are modelled as lists of characters; the JavaScript numeric
   confidence values 0.7, 0.9, 0.05, 0.95 are represented in hundredths
   (70, 90, 5, 95), which is exact for every value the code manipulates. -/

namespace LiveInterview

/-- Whitespace test used for the regex class of blank characters and for
String.prototype.trim, restricted to the ASCII blanks; every string the
component manipulates is ASCII. -/
def isWs (c : Char) : Bool :=
  c = ' ' || c = '\t' || c = '\n' || c = '\r' || c = '\x0b' || c = '\x0c'

/-- Does the second list start with the first one. -/
def startsWithL : List Char → List Char → Bool
  | [], _ => true
  | _ :: _, [] => false
  | p :: ps, c :: cs => p = c && startsWithL ps cs

/-- Scan for the first occurrence of pat in the string and return the suffix
that follows it, none when pat does not occur.  This models how a regular
expression anchored on a literal marker finds its leftmost match. -/
def dropAfterFirst (pat : List Char) : List Char → Option (List Char)
  | [] => if startsWithL pat [] then some [] else none
  | c :: rest =>
      if startsWithL pat (c :: rest) then some (List.drop pat.length (c :: rest))
      else dropAfterFirst pat rest

/-- Substring test, modelling String.prototype.includes. -/
def containsSub (pat s : List Char) : Bool :=
  (dropAfterFirst pat s).isSome

/-- String.prototype.trim on the character-list model. -/
def trimL (s : List Char) : List Char :=
  ((s.dropWhile isWs).reverse.dropWhile isWs).reverse

/-- String.prototype.toLowerCase on the character-list model. -/
def toLowerL (s : List Char) : List Char :=
  s.map Char.toLower

def transcriptionMarker : List Char := "TRANSCRIPTION:".toList

def answerMarker : List Char := "ANSWER:".toList

def unclearSentinel : List Char := "UNCLEAR_AUDIO".toList

def unclearWord : List Char := "unclear".toList

def inaudibleWord : List Char := "inaudible".toList

/-- The lazy capture of the transcription regex: after the marker and the
greedily consumed blanks, take characters up to the first position where a
newline followed by blanks and the ANSWER marker begins (the lookahead), or to
the end of the string when no such position exists. -/
def scanUntilAnswerBreak : List Char → List Char
  | [] => []
  | c :: rest =>
      if c = '\n' && startsWithL answerMarker (rest.dropWhile isWs) then []
      else c :: scanUntilAnswerBreak rest

/-- Capture group of the transcription regex of processAudioChunk, dotall
mode: the marker, greedy blanks, then a lazy capture bounded by the lookahead
for a newline, blanks and the ANSWER marker, or by the end of input. -/
def transcriptionCapture (content : List Char) : Option (List Char) :=
  (dropAfterFirst transcriptionMarker content).map
    (fun rest => scanUntilAnswerBreak (rest.dropWhile isWs))

/-- Capture group of the answer regex of processAudioChunk, dotall mode: the
marker, greedy blanks, then everything to the end of input. -/
def answerCapture (content : List Char) : Option (List Char) :=
  (dropAfterFirst answerMarker content).map (fun rest => rest.dropWhile isWs)

/-- The transcription value computed by processAudioChunk: the trimmed capture
when the regex matched, the empty string otherwise (the JavaScript or-empty
fallback collapses a blank capture to the empty string, which trimming already
does). -/
def extractTranscription (content : List Char) : List Char :=
  match transcriptionCapture content with
  | some cap => trimL cap
  | none => []

/-- The answer value computed by processAudioChunk: the trimmed capture when
the answer regex matched and its trimmed value is non-empty (a falsy empty
string falls through the JavaScript or), the trimmed whole content
otherwise. -/
def extractAnswer (content : List Char) : List Char :=
  match answerCapture content with
  | some cap => if (trimL cap).isEmpty then trimL content else trimL cap
  | none => trimL content

/-- The confidence heuristic of processAudioChunk in hundredths: base 0.70,
raised to 0.90 for long transcription and answer, plus 0.05 when the
transcription holds a question mark, plus 0.05 when the answer mentions the
lowercased target language, clipped at 0.95. -/
def computeConfidence (lang transcription answer : List Char) : Nat :=
  min
    ((if 20 < transcription.length ∧ 30 < answer.length then 90 else 70)
      + (if containsSub ("?".toList) transcription then 5 else 0)
      + (if containsSub (toLowerL lang) answer then 5 else 0))
    95

/-- Outcome of the response-parsing section of processAudioChunk: either the
chunk is rejected (placeholder removed, nothing rendered) or a completed
record with transcription, answer and confidence is produced. -/
inductive ParseResult where
  | rejected
  | accepted (transcription answer : List Char) (confidence : Nat)
  deriving DecidableEq, Repr

/-- The response-parsing decision of processAudioChunk (enhanced variant,
lines after the fetch): reject for empty content, the UNCLEAR_AUDIO sentinel
or short content; reject for a short transcription or one that mentions
unclear or inaudible; otherwise accept with the heuristic confidence. -/
def parseGeminiContent (lang content : List Char) : ParseResult :=
  if content.isEmpty || containsSub unclearSentinel content
      || decide (content.length < 20) then
    ParseResult.rejected
  else if decide ((extractTranscription content).length < 5)
      || containsSub unclearWord (toLowerL (extractTranscription content))
      || containsSub inaudibleWord (toLowerL (extractTranscription content)) then
    ParseResult.rejected
  else
    ParseResult.accepted (extractTranscription content) (extractAnswer content)
      (computeConfidence lang (extractTranscription content) (extractAnswer content))

/-- Confidence carried by a parse result, zero for a rejection. -/
def confidenceOf : ParseResult → Nat
  | ParseResult.rejected => 0
  | ParseResult.accepted _ _ c => c

/-- Transcription carried by a parse result, empty for a rejection. -/
def transcriptionOf : ParseResult → List Char
  | ParseResult.rejected => []
  | ParseResult.accepted t _ _ => t

/-- Answer carried by a parse result, empty for a rejection. -/
def answerOf : ParseResult → List Char
  | ParseResult.rejected => []
  | ParseResult.accepted _ a _ => a

/-- The ResponseRecord rendered by the component (GeminiResponse interface of
the enhanced variant).  Chunk identifiers are modelled as natural numbers; the
component builds them from a timestamp and a monotone counter, and only ever
compares them for equality. -/
structure GeminiResponse where
  id : Nat
  transcription : List Char
  answer : List Char
  confidence : Nat
  timestamp : Nat
  isProcessing : Bool
  isStale : Bool
  deriving DecidableEq, Repr

/-- The placeholder record inserted at admission by processAudioChunk. -/
def placeholderResponse (id now : Nat) : GeminiResponse :=
  { id := id
    transcription := "Analyzing audio...".toList
    answer := "Processing your question...".toList
    confidence := 0
    timestamp := now
    isProcessing := true
    isStale := false }

/-- The removal of every record of a given chunk id from the visible list,
modelling setResponses of a filter on id inequality. -/
def removeResponse (id : Nat) (rs : List GeminiResponse) : List GeminiResponse :=
  rs.filter (fun r => r.id != id)

/-- What happens inside the try block of processAudioChunk before any visible
success-path effect: either some step throws (blob read, configuration check,
fetch, non-ok status, body decode), or the first candidate text is extracted
(the empty string when the response carries none). -/
inductive TryOutcome where
  | failure
  | success (content : List Char)
  deriving DecidableEq, Repr

/-- Observable effects of one processAudioChunk run, in program order:
counter updates, the staggered placeholder insertion, direct visible-list
mutations, the transcription banner, the screenshot trigger, the error toast
and the finally-block deletion from the processing queue. -/
inductive Effect where
  | incCount
  | decCountClamped
  | staggeredUpdate (r : GeminiResponse)
  | removeById (id : Nat)
  | replaceById (id : Nat) (r : GeminiResponse)
  | setCurrentTranscription (t : List Char)
  | scheduleScreenshot
  | showErrorToast
  | queueDelete (id : Nat)
  deriving DecidableEq, Repr

/-- Effects of the success path of the try block after the candidate text was
extracted: a rejection removes the placeholder; an acceptance replaces the
placeholder by the completed record via a direct setResponses map, updates the
transcription banner, and optionally schedules the screenshot. -/
def parsedContentEffects (lang : List Char) (autoScreenshot isScreenCapturing : Bool)
    (chunkId now2 : Nat) (content : List Char) : List Effect :=
  match parseGeminiContent lang content with
  | ParseResult.rejected => [Effect.removeById chunkId]
  | ParseResult.accepted t a c =>
      [Effect.replaceById chunkId
          { id := chunkId, transcription := t, answer := a, confidence := c,
            timestamp := now2, isProcessing := false, isStale := false },
        Effect.setCurrentTranscription t]
      ++ (if autoScreenshot && isScreenCapturing && decide (10 < t.length) then
            [Effect.scheduleScreenshot]
          else [])

/-- Effects of the try and catch blocks of processAudioChunk: a failure
anywhere in the try block lands in the catch, which removes the placeholder
and toasts only when at most one chunk is being processed. -/
def tryBlockEffects (lang : List Char) (autoScreenshot isScreenCapturing : Bool)
    (activeProcessingCount chunkId now2 : Nat) : TryOutcome → List Effect
  | TryOutcome.failure =>
      Effect.removeById chunkId
        :: (if activeProcessingCount ≤ 1 then [Effect.showErrorToast] else [])
  | TryOutcome.success content =>
      parsedContentEffects lang autoScreenshot isScreenCapturing chunkId now2 content

/-- The effect sequence of one processAudioChunk call in the enhanced variant:
blobs under 5000 bytes return before the try block (no effect at all, and in
particular no queue cleanup); otherwise the counter is bumped, the placeholder
goes through updateResponsesWithDelay, the try body runs to one of its
outcomes, and the finally block decrements the clamped counter and deletes the
queue entry exactly once. -/
def processAudioChunkEffects (lang : List Char) (autoScreenshot isScreenCapturing : Bool)
    (activeProcessingCount : Nat) (chunkId blobSize now now2 : Nat)
    (o : TryOutcome) : List Effect :=
  if blobSize < 5000 then []
  else
    [Effect.incCount, Effect.staggeredUpdate (placeholderResponse chunkId now)]
    ++ tryBlockEffects lang autoScreenshot isScreenCapturing activeProcessingCount
        chunkId now2 o
    ++ [Effect.decCountClamped, Effect.queueDelete chunkId]

/-- Is an effect the finally-block deletion from the processing queue. -/
def isQueueDelete : Effect → Bool
  | Effect.queueDelete _ => true
  | _ => false

/-- Does every staggered presenter submission in the list carry a placeholder
record (isProcessing set)?  True exactly when no completed record is routed
through the staggering mechanism. -/
def staggeredOnlyPlaceholders (es : List Effect) : Bool :=
  es.all (fun e =>
    match e with
    | Effect.staggeredUpdate r => r.isProcessing
    | _ => true)

/-- Is some effect a direct replacement by a completed (non-processing)
record, that is, a completion update bypassing the staggering mechanism. -/
def hasDirectCompletion (es : List Effect) : Bool :=
  es.any (fun e =>
    match e with
    | Effect.replaceById _ r => !r.isProcessing
    | _ => false)

/-- Updates of the activeProcessingCount state: the increment at entry and the
clamped decrement of the finally block. -/
inductive CounterOp where
  | increment
  | clampedDecrement
  deriving DecidableEq, Repr

/-- One setActiveProcessingCount functional update: plus one on entry, and
max 0 (previous minus one) in the finally block. -/
def applyCounterOp (c : Int) : CounterOp → Int
  | CounterOp.increment => c + 1
  | CounterOp.clampedDecrement => max 0 (c - 1)

/-- State of the recording session: the continuousRecordingRef flag, the
recorder cycles currently in progress, the keys of processingQueueRef, and
whether the microphone stream and audio context are still held. -/
structure SessionState where
  continuousRecording : Bool
  recorders : List Nat
  processingQueue : List Nat
  micOn : Bool
  deriving DecidableEq, Repr

/-- Events of the session loop: a recordChunk tick starting a recorder cycle,
the onstop handler of a cycle delivering its blob (with the admission guard),
the settlement of an admitted chunk (the finally-block deletion), and the
stopListening call. -/
inductive SessionEvent where
  | startCycle (id : Nat)
  | recorderStop (id : Nat) (blobSize : Nat) (levelOk : Bool)
  | settle (id : Nat)
  | stopListening
  deriving DecidableEq, Repr

/-- One step of the session loop, enhanced variant.  recordChunk starts a
cycle only while the continuous-recording flag holds; the onstop handler
admits the blob when it is over 8000 bytes, the queue is strictly below
maxConcurrentProcessing and the audio level passed, with no check of the
stop flag; settlement deletes the queue entry; stopListening clears the flag
and synchronously stops the stream tracks and closes the audio context. -/
def sessionStep (maxConcurrent : Nat) (s : SessionState) : SessionEvent → SessionState
  | SessionEvent.startCycle id =>
      if s.continuousRecording then { s with recorders := id :: s.recorders } else s
  | SessionEvent.recorderStop id blobSize levelOk =>
      if id ∈ s.recorders then
        let s1 := { s with recorders := s.recorders.erase id }
        if 8000 < blobSize ∧ s1.processingQueue.length < maxConcurrent ∧ levelOk = true then
          { s1 with processingQueue := id :: s1.processingQueue }
        else s1
      else s
  | SessionEvent.settle id =>
      { s with processingQueue := s.processingQueue.erase id }
  | SessionEvent.stopListening =>
      { s with continuousRecording := false, micOn := false }

/-- Session state right after startContinuousRecording: flag set, no cycle in
progress, empty queue, microphone held. -/
def initialSession : SessionState :=
  { continuousRecording := true, recorders := [], processingQueue := [], micOn := true }

/-- Run of the session loop over a sequence of events. -/
def runSession (maxConcurrent : Nat) (events : List SessionEvent) : SessionState :=
  events.foldl (sessionStep maxConcurrent) initialSession

/-- Index-aware stale marking: the map over (record, index) pairs that sets
isStale on every record with index above 10. -/
def markFromIdx (i : Nat) : List GeminiResponse → List GeminiResponse
  | [] => []
  | r :: rs =>
      (if 10 < i then { r with isStale := true } else r) :: markFromIdx (i + 1) rs

/-- The stale-marking step of a flush: applied to the previous visible list
only when it holds more than 15 records. -/
def markOlderStale (prev : List GeminiResponse) : List GeminiResponse :=
  if 15 < prev.length then markFromIdx 0 prev else prev

/-- One flush of the staggered presenter: the buffered responses are placed in
front of the (possibly stale-marked) previous list and the result is cut to 20
records. -/
def flushList (toAdd prev : List GeminiResponse) : List GeminiResponse :=
  (toAdd ++ markOlderStale prev).take 20

/-- Is every record beyond the given index marked stale. -/
def allStaleBeyond (k : Nat) (l : List GeminiResponse) : Bool :=
  (l.drop (k + 1)).all (fun r => r.isStale)

/-- State of the staggered presenter: the clock, lastResponseTimeRef, the
pendingResponsesRef buffer, the deadlines of the armed one-shot timers, the
visible responses list and the log of performed flushes, newest first, each
tagged with whether it came from the immediate branch of
updateResponsesWithDelay (true) or from a timer callback (false). -/
structure PresenterState where
  time : Nat
  lastResponseTime : Nat
  pendingResponses : List GeminiResponse
  timers : List Nat
  responses : List GeminiResponse
  flushLog : List (Nat × Bool)
  deriving DecidableEq, Repr

/-- Perform a flush now: move the buffer into the visible list through the
flush policy, record the flush time and clear the buffer. -/
def applyFlush (s : PresenterState) (immediate : Bool) : PresenterState :=
  { s with
    pendingResponses := []
    lastResponseTime := s.time
    responses := flushList s.pendingResponses s.responses
    flushLog := (s.time, immediate) :: s.flushLog }

/-- One call of updateResponsesWithDelay: push the new response into the
buffer; flush immediately when at least responseUpdateDelay elapsed since the
last flush, otherwise arm a one-shot timer for the remaining wait (its
deadline is lastResponseTime plus the delay).  The code arms a timer on every
such call, with no check for an already armed one. -/
def updateResponsesWithDelay (delay : Nat) (r : GeminiResponse)
    (s : PresenterState) : PresenterState :=
  let s1 := { s with pendingResponses := s.pendingResponses ++ [r] }
  if delay ≤ s1.time - s1.lastResponseTime then applyFlush s1 true
  else { s1 with timers := (s1.lastResponseTime + delay) :: s1.timers }

/-- Body of the armed timer: flush whatever accumulated, or do nothing when
the buffer is empty. -/
def timerCallback (s : PresenterState) : PresenterState :=
  if s.pendingResponses.isEmpty then s else applyFlush s false

/-- Events of the presenter: clock advance, a call of
updateResponsesWithDelay, and the firing of an armed timer (allowed at or
after its deadline, as the event loop may run the callback late). -/
inductive PresenterEvent where
  | tick (dt : Nat)
  | call (r : GeminiResponse)
  | fire (deadline : Nat)
  deriving Repr

/-- One step of the presenter. -/
def presenterStep (delay : Nat) (s : PresenterState) : PresenterEvent → PresenterState
  | PresenterEvent.tick dt => { s with time := s.time + dt }
  | PresenterEvent.call r => updateResponsesWithDelay delay r s
  | PresenterEvent.fire d =>
      if d ∈ s.timers ∧ d ≤ s.time then
        timerCallback { s with timers := s.timers.erase d }
      else s

/-- Initial presenter state: lastResponseTimeRef starts at zero, everything
else empty. -/
def initialPresenter : PresenterState :=
  { time := 0, lastResponseTime := 0, pendingResponses := [], timers := []
    responses := [], flushLog := [] }

/-- Run of the presenter over a sequence of events. -/
def runPresenter (delay : Nat) (events : List PresenterEvent) : PresenterState :=
  events.foldl (presenterStep delay) initialPresenter

/-- Are adjacent entries of a flush-time log (newest first) always at least
the given delay apart.  This is the minimum-spacing property the claim states
for all flushes. -/
def allGapsAtLeast (delay : Nat) : List Nat → Bool
  | t2 :: t1 :: rest => decide (t1 + delay ≤ t2) && allGapsAtLeast delay (t1 :: rest)
  | _ => true

/-- Spacing property that the code actually guarantees: an immediate-branch
flush is at least the delay after the flush preceding it; timer-branch
flushes are unconstrained. -/
def spacedImmediate (delay : Nat) : List (Nat × Bool) → Bool
  | (t2, b2) :: (t1, b1) :: rest =>
      (if b2 then decide (t1 + delay ≤ t2) else true)
        && spacedImmediate delay ((t1, b1) :: rest)
  | _ => true

/-- Invariant of the presenter maintained by every step: the clock is ahead of
the last flush time, the newest log entry records the last flush time, the
immediate-branch spacing holds, and while the buffer is non-empty some armed
timer is due no later than the last flush time plus the delay. -/
def presenterInv (delay : Nat) (s : PresenterState) : Prop :=
  s.lastResponseTime ≤ s.time
  ∧ (∀ p, s.flushLog.head? = some p → p.1 = s.lastResponseTime)
  ∧ spacedImmediate delay s.flushLog = true
  ∧ (s.pendingResponses ≠ [] → ∃ d ∈ s.timers, d ≤ s.lastResponseTime + delay)

/-- A minimal completed response record, used for concrete traces. -/
def sampleResponse (i : Nat) : GeminiResponse :=
  { id := i, transcription := [], answer := [], confidence := 0, timestamp := 0,
    isProcessing := false, isStale := false }

/-- The response text of the parser example: a TRANSCRIPTION line followed by
an ANSWER line. -/
def c7Content : List Char :=
  "TRANSCRIPTION: Tell me about yourself\nANSWER: Focus on relevant experience.".toList

def c7Transcription : List Char := "Tell me about yourself".toList

def c7Answer : List Char := "Focus on relevant experience.".toList

/-- A response text that passes every quality check but holds no ANSWER
marker. -/
def c10Content : List Char :=
  "TRANSCRIPTION: Tell me about your projects today".toList

def c10Transcription : List Char := "Tell me about your projects today".toList

/-- A concrete successful processAudioChunk run on an admitted chunk. -/
def c4Run : List Effect :=
  processAudioChunkEffects "python".toList false false 0 1 9000 100 200
    (TryOutcome.success c7Content)

/-- Presenter interleaving with two timers armed for the same deadline and a
call arriving between their callbacks: call at 100, call at 200, first timer
fires at 1500 and flushes, a completion calls in at 1500, the second timer
fires right after and flushes again at 1500. -/
def c3CounterTrace : List PresenterEvent :=
  [PresenterEvent.tick 100, PresenterEvent.call (sampleResponse 1),
   PresenterEvent.tick 100, PresenterEvent.call (sampleResponse 2),
   PresenterEvent.tick 1300, PresenterEvent.fire 1500,
   PresenterEvent.call (sampleResponse 3), PresenterEvent.fire 1500]

/-- Presenter trace leaving one response buffered with its timer armed. -/
def c3PendingTrace : List PresenterEvent :=
  [PresenterEvent.tick 100, PresenterEvent.call (sampleResponse 1)]

/-- A visible list of twelve fresh records, past the secondary threshold of
ten but not past fifteen. -/
def prevTwelve : List GeminiResponse := (List.range 12).map sampleResponse

/-- A visible list of sixteen fresh records, past fifteen. -/
def prevSixteen : List GeminiResponse := (List.range 16).map sampleResponse

/-- Session trace: one recorder cycle starts, then stopListening runs. -/
def c6StopTrace : List SessionEvent :=
  [SessionEvent.startCycle 1, SessionEvent.stopListening]

/-- The same trace continued: the cycle that was in progress at stop time
delivers a large, loud blob to its onstop handler. -/
def c6AdmitTrace : List SessionEvent :=
  c6StopTrace ++ [SessionEvent.recorderStop 1 9000 true]

/-- A session state after stopListening. -/
def stoppedSession : SessionState :=
  { continuousRecording := false, recorders := [], processingQueue := [], micOn := false }

/- ---------------------------------------------------------------------- -/
/- Helper lemmas.                                                          -/
/- ---------------------------------------------------------------------- -/

theorem sessionStep_queue_le (M : Nat) (s : SessionState) (e : SessionEvent)
    (h : s.processingQueue.length ≤ M) :
    ((sessionStep M s e).processingQueue).length ≤ M := by
  cases e with
  | startCycle id =>
      simp only [sessionStep]
      split <;> simpa using h
  | recorderStop id blobSize levelOk =>
      simp only [sessionStep]
      split
      · split
        · rename_i hmem hguard
          simpa using hguard.2.1
        · simpa using h
      · exact h
  | settle id =>
      simp only [sessionStep]
      exact le_trans (List.Sublist.length_le (List.erase_sublist _ _)) h
  | stopListening =>
      simpa [sessionStep] using h

theorem foldl_sessionStep_queue_le (M : Nat) (events : List SessionEvent) :
    ∀ s : SessionState, s.processingQueue.length ≤ M →
      ((events.foldl (sessionStep M) s).processingQueue).length ≤ M := by
  induction events with
  | nil => intro s h; simpa using h
  | cons e rest ih =>
      intro s h
      exact ih (sessionStep M s e) (sessionStep_queue_le M s e h)

theorem le_computeConfidence (lang t a : List Char) :
    70 ≤ computeConfidence lang t a := by
  unfold computeConfidence
  refine le_min ?_ (by norm_num)
  split <;> split <;> split <;> omega

theorem foldl_applyCounterOp_nonneg (ops : List CounterOp) :
    ∀ c : Int, 0 ≤ c → 0 ≤ ops.foldl applyCounterOp c := by
  induction ops with
  | nil => intro c h; simpa using h
  | cons op rest ih =>
      intro c h
      refine ih (applyCounterOp c op) ?_
      cases op with
      | increment => simp only [applyCounterOp]; omega
      | clampedDecrement => simp only [applyCounterOp]; exact le_max_left 0 (c - 1)

/- ---------------------------------------------------------------------- -/
/- Claim theorems.                                                         -/
/- ---------------------------------------------------------------------- -/

/-- C1: for every sequence of session events the processing-queue mapping
never holds more than maxConcurrentProcessing entries — the onstop handler
registers a chunk only when the entry count is strictly below the bound — and
a settlement deletes the settled entry from the mapping. -/
theorem claim_C1_concurrency_bound (maxConcurrent : Nat) (events : List SessionEvent) :
    (runSession maxConcurrent events).processingQueue.length ≤ maxConcurrent
    ∧ ∀ (s : SessionState) (id : Nat),
        (sessionStep maxConcurrent s (SessionEvent.settle id)).processingQueue
          = s.processingQueue.erase id := by
  constructor
  · exact foldl_sessionStep_queue_le maxConcurrent events initialSession (by simp [initialSession])
  · intro s id
    rfl

/-- C7: on the response text with the TRANSCRIPTION and ANSWER lines of the
example, the parser accepts with exactly the two quoted fields and the
heuristic confidence, which is at least 0.70 (in hundredths) for every target
language. -/
theorem claim_C7_parser_example (lang : List Char) :
    parseGeminiContent lang c7Content
      = ParseResult.accepted c7Transcription c7Answer
          (computeConfidence lang c7Transcription c7Answer)
    ∧ 70 ≤ confidenceOf (parseGeminiContent lang c7Content) := by
  have h : parseGeminiContent lang c7Content
      = ParseResult.accepted c7Transcription c7Answer
          (computeConfidence lang c7Transcription c7Answer) := rfl
  refine ⟨h, ?_⟩
  rw [h]
  exact le_computeConfidence lang c7Transcription c7Answer

/-- C8: every response text containing the UNCLEAR_AUDIO sentinel is rejected
by the parser, the id-filter removes every record carrying the chunk id from
the visible list, and the whole effect sequence of such a chunk is the
placeholder insertion followed by its removal and the finally-block cleanup —
no completed record is ever produced. -/
theorem claim_C8_sentinel_rejection (lang content : List Char) (id : Nat)
    (rs : List GeminiResponse)
    (h : containsSub unclearSentinel content = true) :
    parseGeminiContent lang content = ParseResult.rejected
    ∧ (∀ r ∈ removeResponse id rs, r.id ≠ id)
    ∧ ∀ (aS sC : Bool) (ac blobSize now now2 : Nat), ¬ blobSize < 5000 →
        processAudioChunkEffects lang aS sC ac id blobSize now now2
            (TryOutcome.success content)
          = [Effect.incCount, Effect.staggeredUpdate (placeholderResponse id now),
             Effect.removeById id, Effect.decCountClamped, Effect.queueDelete id] := by
  have hrej : parseGeminiContent lang content = ParseResult.rejected := by
    simp [parseGeminiContent, h]
  refine ⟨hrej, ?_, ?_⟩
  · intro r hr
    simp only [removeResponse, List.mem_filter, bne_iff_ne, ne_eq] at hr
    exact hr.2
  · intro aS sC ac blobSize now now2 hsize
    simp [processAudioChunkEffects, hsize, tryBlockEffects, parsedContentEffects, hrej]

/-- C9: the active-processing counter is never negative — starting from zero,
any interleaving of increments and clamped decrements keeps it at or above
zero, and a clamped decrement of any value, even an unbalanced one, is at or
above zero. -/
theorem claim_C9_counter_nonneg (ops : List CounterOp) :
    0 ≤ ops.foldl applyCounterOp 0
    ∧ ∀ c : Int, 0 ≤ applyCounterOp c CounterOp.clampedDecrement := by
  refine ⟨foldl_applyCounterOp_nonneg ops 0 le_rfl, ?_⟩
  intro c
  exact le_max_left 0 (c - 1)

/-- C2: an admitted chunk (blob over 8000 bytes, so the under-5000 early
return that would skip the finally block is unreachable) performs the
finally-block queue deletion exactly once, whatever the outcome of the try
block — success, quality or sentinel rejection, or failure — and the deleted
key is the chunk's own id: no slot leak and no double release. -/
theorem claim_C2_exactly_one_release (lang : List Char) (aS sC : Bool)
    (ac id blobSize now now2 : Nat) (o : TryOutcome)
    (h : 8000 < blobSize) :
    (processAudioChunkEffects lang aS sC ac id blobSize now now2 o).countP isQueueDelete = 1
    ∧ ∀ j, Effect.queueDelete j ∈ processAudioChunkEffects lang aS sC ac id blobSize now now2 o
        → j = id := by
  have hsize : ¬ blobSize < 5000 := by omega
  constructor
  · simp only [processAudioChunkEffects, if_neg hsize]
    cases o with
    | failure =>
        simp only [tryBlockEffects]
        split <;> simp [isQueueDelete, List.countP_append, List.countP_cons]
    | success content =>
        simp only [tryBlockEffects, parsedContentEffects]
        cases hp : parseGeminiContent lang content with
        | rejected =>
            simp [isQueueDelete, List.countP_append, List.countP_cons]
        | accepted t a c =>
            dsimp only
            split <;> simp [isQueueDelete, List.countP_append, List.countP_cons]
  · intro j hj
    simp only [processAudioChunkEffects, if_neg hsize] at hj
    cases o with
    | failure =>
        simp only [tryBlockEffects] at hj
        revert hj
        split <;> simp
    | success content =>
        simp only [tryBlockEffects, parsedContentEffects] at hj
        cases hp : parseGeminiContent lang content with
        | rejected =>
            rw [hp] at hj
            simp at hj
            exact hj
        | accepted t a c =>
            rw [hp] at hj
            revert hj
            split <;> simp

/-- Witness for C2 at a concrete admitted chunk with a failing try block. -/
theorem claim_C2_witness :
    (processAudioChunkEffects [] false false 0 1 9000 0 0 TryOutcome.failure).countP
      isQueueDelete = 1 :=
  (claim_C2_exactly_one_release [] false false 0 1 9000 0 0 TryOutcome.failure
    (by decide)).1

/-- Witness for C8: the sentinel itself is parsed as a rejection. -/
theorem claim_C8_witness :
    parseGeminiContent [] unclearSentinel = ParseResult.rejected :=
  (claim_C8_sentinel_rejection [] unclearSentinel 1 [] (by decide)).1

/-- C4 counterexample: on a concrete admitted chunk that succeeds, the
placeholder insertion is routed through updateResponsesWithDelay (a staggered
submission carrying the processing flag) — not synchronously — while the
completion update is a direct list replacement that never passes through the
staggering mechanism; the claim states the exact opposite routing. -/
theorem claim_C4_counterexample :
    Effect.staggeredUpdate (placeholderResponse 1 100) ∈ c4Run
    ∧ staggeredOnlyPlaceholders c4Run = true
    ∧ hasDirectCompletion c4Run = true := by
  decide

/-- C4 amended: in the enhanced variant the routing is inverted with respect
to the claim — every submission to the staggering mechanism is a placeholder
(the completion never staggers), every replacement is the direct completion
update for the chunk's own id, and every run past the size gate submits its
placeholder through the staggered path. -/
theorem claim_C4_amended (lang : List Char) (aS sC : Bool)
    (ac id blobSize now now2 : Nat) (o : TryOutcome) :
    staggeredOnlyPlaceholders
        (processAudioChunkEffects lang aS sC ac id blobSize now now2 o) = true
    ∧ (∀ j r, Effect.replaceById j r
          ∈ processAudioChunkEffects lang aS sC ac id blobSize now now2 o →
        r.isProcessing = false ∧ j = id)
    ∧ (¬ blobSize < 5000 →
        Effect.staggeredUpdate (placeholderResponse id now)
          ∈ processAudioChunkEffects lang aS sC ac id blobSize now now2 o) := by
  refine ⟨?_, ?_, ?_⟩
  · by_cases hsize : blobSize < 5000
    · simp [processAudioChunkEffects, hsize, staggeredOnlyPlaceholders]
    · simp only [processAudioChunkEffects, if_neg hsize]
      cases o with
      | failure =>
          simp only [tryBlockEffects]
          split <;> simp [staggeredOnlyPlaceholders, placeholderResponse]
      | success content =>
          simp only [tryBlockEffects, parsedContentEffects]
          cases hp : parseGeminiContent lang content with
          | rejected => simp [staggeredOnlyPlaceholders, placeholderResponse]
          | accepted t a c =>
              dsimp only
              split <;> simp [staggeredOnlyPlaceholders, placeholderResponse]
  · intro j r hj
    by_cases hsize : blobSize < 5000
    · simp [processAudioChunkEffects, hsize] at hj
    · simp only [processAudioChunkEffects, if_neg hsize] at hj
      cases o with
      | failure =>
          simp only [tryBlockEffects] at hj
          revert hj
          split <;> simp
      | success content =>
          simp only [tryBlockEffects, parsedContentEffects] at hj
          cases hp : parseGeminiContent lang content with
          | rejected =>
              rw [hp] at hj
              simp at hj
          | accepted t a c =>
              rw [hp] at hj
              dsimp only at hj
              revert hj
              split <;>
                · intro hj
                  simp at hj
                  obtain ⟨h1, h2⟩ := hj
                  subst h1
                  subst h2
                  exact ⟨rfl, rfl⟩
  · intro hsize
    simp only [processAudioChunkEffects, if_neg hsize]
    cases o with
    | failure => simp [tryBlockEffects]
    | success content =>
        simp only [tryBlockEffects, parsedContentEffects]
        cases hp : parseGeminiContent lang content <;> simp

/-- Witness for C4 amended on a concrete admitted successful run. -/
theorem claim_C4_amended_witness :
    Effect.staggeredUpdate (placeholderResponse 1 100) ∈ c4Run :=
  (claim_C4_amended "python".toList false false 0 1 9000 100 200
    (TryOutcome.success c7Content)).2.2 (by decide)

theorem mem_dropWhile_of_neg {p : Char → Bool} {c : Char} (hp : p c = false) :
    ∀ (l : List Char), c ∈ l → c ∈ l.dropWhile p := by
  intro l
  induction l with
  | nil => intro h; simp at h
  | cons a t ih =>
      intro h
      rw [List.dropWhile_cons]
      split
      · rename_i ha
        rcases List.mem_cons.mp h with h1 | h2
        · subst h1
          exact absurd ha (by simp [hp])
        · exact ih h2
      · exact h

theorem trimL_ne_nil_iff (s : List Char) :
    trimL s ≠ [] ↔ ∃ c ∈ s, isWs c = false := by
  constructor
  · intro h
    by_contra hno
    apply h
    simp only [trimL, List.reverse_eq_nil_iff, List.dropWhile_eq_nil_iff]
    intro x hx
    have hxs : x ∈ s :=
      List.Sublist.mem (List.mem_reverse.mp hx) (List.dropWhile_sublist _)
    by_contra hxw
    exact hno ⟨x, hxs, by simpa using hxw⟩
  · rintro ⟨c, hc, hw⟩
    have h1 : c ∈ s.dropWhile isWs := mem_dropWhile_of_neg hw s hc
    have h2 : c ∈ (s.dropWhile isWs).reverse := List.mem_reverse.mpr h1
    have h3 : c ∈ (s.dropWhile isWs).reverse.dropWhile isWs :=
      mem_dropWhile_of_neg hw _ h2
    intro habs
    rw [trimL, List.reverse_eq_nil_iff] at habs
    exact List.ne_nil_of_mem h3 habs

theorem mem_of_mem_scan {c : Char} :
    ∀ {l : List Char}, c ∈ scanUntilAnswerBreak l → c ∈ l := by
  intro l
  induction l with
  | nil => intro h; simp [scanUntilAnswerBreak] at h
  | cons a t ih =>
      intro h
      simp only [scanUntilAnswerBreak] at h
      split at h
      · simp at h
      · rcases List.mem_cons.mp h with h1 | h2
        · exact h1 ▸ List.mem_cons_self a t
        · exact List.mem_cons_of_mem a (ih h2)

theorem mem_of_dropAfterFirst {pat : List Char} {c : Char} :
    ∀ {l r : List Char}, dropAfterFirst pat l = some r → c ∈ r → c ∈ l := by
  intro l
  induction l with
  | nil =>
      intro r h hc
      simp only [dropAfterFirst] at h
      split at h
      · injection h with h2
        subst h2
        simp at hc
      · cases h
  | cons a t ih =>
      intro r h hc
      simp only [dropAfterFirst] at h
      split at h
      · injection h with h2
        subst h2
        exact List.Sublist.mem hc (List.drop_sublist _ _)
      · exact List.mem_cons_of_mem a (ih h hc)

/-- C10: an accepted parse never carries an empty answer, and when the content
holds no ANSWER marker the answer falls back to the whole trimmed content —
the parser does not reject for a missing ANSWER section. -/
theorem claim_C10_answer_fallback (lang content t a : List Char) (c : Nat)
    (h : parseGeminiContent lang content = ParseResult.accepted t a c) :
    a ≠ [] ∧ (answerCapture content = none → a = trimL content) := by
  unfold parseGeminiContent at h
  split at h
  · exact ParseResult.noConfusion h
  · split at h
    · exact ParseResult.noConfusion h
    · rename_i hcond1 hcond2
      injection h with h1 h2 h3
      subst h1
      subst h2
      have htlen : ¬ (extractTranscription content).length < 5 := by
        intro hlt
        exact hcond2 (by simp [hlt])
      have htne : extractTranscription content ≠ [] := by
        intro hnil
        rw [hnil] at htlen
        simp at htlen
      have hcontent : trimL content ≠ [] := by
        cases hcap : transcriptionCapture content with
        | none =>
            exact absurd
              (show extractTranscription content = [] by
                simp [extractTranscription, hcap])
              htne
        | some cap =>
            have hteq : extractTranscription content = trimL cap := by
              simp [extractTranscription, hcap]
            have h5 : trimL cap ≠ [] := hteq ▸ htne
            obtain ⟨ch, hch, hw⟩ := (trimL_ne_nil_iff cap).mp h5
            rw [transcriptionCapture] at hcap
            obtain ⟨rest, hrest, hcapeq⟩ := Option.map_eq_some'.mp hcap
            subst hcapeq
            have hch2 : ch ∈ rest.dropWhile isWs := mem_of_mem_scan hch
            have hch3 : ch ∈ rest :=
              List.Sublist.mem hch2 (List.dropWhile_sublist _)
            have hch4 : ch ∈ content := mem_of_dropAfterFirst hrest hch3
            exact (trimL_ne_nil_iff content).mpr ⟨ch, hch4, hw⟩
      constructor
      · unfold extractAnswer
        cases hac : answerCapture content with
        | none => simpa using hcontent
        | some cap2 =>
            dsimp only
            split
            · exact hcontent
            · rename_i hemp
              exact List.isEmpty_eq_false.mp (by simpa using hemp)
      · intro hnone
        simp [extractAnswer, hnone]

/-- Witness for C10 on a content that passes every quality check and has no
ANSWER marker: the accepted answer is the whole trimmed content. -/
theorem claim_C10_witness :
    c10Content ≠ [] ∧ (answerCapture c10Content = none → c10Content = trimL c10Content) :=
  claim_C10_answer_fallback ("python".toList) c10Content c10Transcription c10Content 90
    (by decide)

theorem presenterStep_inv (delay : Nat) (s : PresenterState) (e : PresenterEvent)
    (h : presenterInv delay s) : presenterInv delay (presenterStep delay s e) := by
  obtain ⟨h1, h2, h3, h4⟩ := h
  cases e with
  | tick dt =>
      refine ⟨?_, h2, h3, h4⟩
      show s.lastResponseTime ≤ s.time + dt
      omega
  | call r =>
      dsimp only [presenterStep, updateResponsesWithDelay]
      split
      · rename_i hguard
        dsimp only [applyFlush]
        refine ⟨le_rfl, ?_, ?_, ?_⟩
        · intro p hp
          simp only [List.head?_cons, Option.some.injEq] at hp
          subst hp
          rfl
        · cases hfl : s.flushLog with
          | nil => simp [spacedImmediate]
          | cons q rest =>
              obtain ⟨t1, b1⟩ := q
              have ht1 : t1 = s.lastResponseTime := by
                have := h2 (t1, b1) (by rw [hfl]; rfl)
                simpa using this
              rw [hfl] at h3
              have hle : t1 + delay ≤ s.time := by omega
              simp [spacedImmediate, hle, h3]
        · intro hpend
          exact absurd rfl hpend
      · rename_i hguard
        refine ⟨h1, h2, h3, ?_⟩
        intro _
        exact ⟨s.lastResponseTime + delay, List.mem_cons_self _ _, le_rfl⟩
  | fire d =>
      dsimp only [presenterStep]
      split
      · rename_i hen
        dsimp only [timerCallback]
        split
        · rename_i hempty
          refine ⟨h1, h2, h3, ?_⟩
          intro hpend
          exact absurd (List.isEmpty_iff.mp hempty) hpend
        · dsimp only [applyFlush]
          refine ⟨le_rfl, ?_, ?_, ?_⟩
          · intro p hp
            simp only [List.head?_cons, Option.some.injEq] at hp
            subst hp
            rfl
          · cases hfl : s.flushLog with
            | nil => simp [spacedImmediate]
            | cons q rest =>
                obtain ⟨t1, b1⟩ := q
                rw [hfl] at h3
                simp [spacedImmediate, h3]
          · intro hpend
            exact absurd rfl hpend
      · exact ⟨h1, h2, h3, h4⟩

theorem runPresenter_inv (delay : Nat) (events : List PresenterEvent) :
    presenterInv delay (runPresenter delay events) := by
  have hinit : presenterInv delay initialPresenter := by
    refine ⟨le_rfl, ?_, rfl, ?_⟩
    · intro p hp
      simp [initialPresenter] at hp
    · intro hp
      exact absurd rfl hp
  suffices hgen : ∀ (tr : List PresenterEvent) (s : PresenterState),
      presenterInv delay s → presenterInv delay (tr.foldl (presenterStep delay) s) by
    exact hgen events initialPresenter hinit
  intro tr
  induction tr with
  | nil => intro s hs; simpa using hs
  | cons e rest ih =>
      intro s hs
      exact ih (presenterStep delay s e) (presenterStep_inv delay s e hs)

/-- C3 counterexample: with responseUpdateDelay 1500 there is an interleaving
of updateResponsesWithDelay calls — two delayed calls arming two timers for
the same deadline, the first timer flushing, a further call arriving between
the two callbacks — in which the presenter performs two flushes at the same
instant 1500, so flushes are not always at least responseUpdateDelay apart:
the code never checks whether a flush timer is already armed. -/
theorem claim_C3_counterexample :
    (runPresenter 1500 c3CounterTrace).flushLog.map Prod.fst = [1500, 1500]
    ∧ allGapsAtLeast 1500 ((runPresenter 1500 c3CounterTrace).flushLog.map Prod.fst)
        = false := by
  decide

/-- C3 amended: over every interleaving, a flush taken in the immediate branch
of updateResponsesWithDelay is at least responseUpdateDelay after the
preceding flush, and while a buffered response is pending some armed one-shot
timer is due no later than the last flush time plus responseUpdateDelay (so no
pending response waits longer than the delay when timers fire on schedule);
but flushes performed by timer callbacks can land arbitrarily close to the
preceding flush, because every delayed call arms its own timer. -/
theorem claim_C3_amended (delay : Nat) (events : List PresenterEvent) :
    spacedImmediate delay (runPresenter delay events).flushLog = true
    ∧ ((runPresenter delay events).pendingResponses ≠ [] →
        ∃ d ∈ (runPresenter delay events).timers,
          d ≤ (runPresenter delay events).lastResponseTime + delay) := by
  obtain ⟨h1, h2, h3, h4⟩ := runPresenter_inv delay events
  exact ⟨h3, h4⟩

/-- Witness for C3 amended: a trace leaving one response buffered has an armed
timer due within the delay. -/
theorem claim_C3_amended_witness :
    ∃ d ∈ (runPresenter 1500 c3PendingTrace).timers,
      d ≤ (runPresenter 1500 c3PendingTrace).lastResponseTime + 1500 :=
  (claim_C3_amended 1500 c3PendingTrace).2 (by decide)

/-- C5 counterexample: a previous visible list of twelve fresh records has
grown past the secondary threshold of ten, yet the next flush marks nothing
stale — the result still has more than ten entries and none beyond index ten
is stale, because the code marks stale only when the previous list holds more
than fifteen records. -/
theorem claim_C5_counterexample :
    10 < prevTwelve.length
    ∧ prevTwelve.all (fun r => !r.isStale) = true
    ∧ 10 < (flushList [sampleResponse 100] prevTwelve).length
    ∧ allStaleBeyond 10 (flushList [sampleResponse 100] prevTwelve) = false := by
  decide

theorem markFromIdx_get? (l : List GeminiResponse) :
    ∀ (i j : Nat), (markFromIdx i l).get? j
      = (l.get? j).map
          (fun r => if 10 < i + j then { r with isStale := true } else r) := by
  induction l with
  | nil => intro i j; simp [markFromIdx]
  | cons r rs ih =>
      intro i j
      cases j with
      | zero => simp [markFromIdx]
      | succ j =>
          simp only [markFromIdx, List.get?_cons_succ]
          rw [ih (i + 1) j]
          have harith : i + 1 + j = i + (j + 1) := by omega
          rw [harith]

/-- C5 amended: after every flush the visible list holds at most 20 records —
that half of the claim is confirmed — but records beyond index 10 of the
previous list are marked stale only when the previous list holds more than 15
records (not more than 10 as claimed); when it does, every previous record
beyond index 10 is marked stale before the concatenation is cut to 20. -/
theorem claim_C5_amended (toAdd prev : List GeminiResponse) :
    (flushList toAdd prev).length ≤ 20
    ∧ (prev.length ≤ 15 → markOlderStale prev = prev)
    ∧ (15 < prev.length → ∀ j, 10 < j →
        (markOlderStale prev).get? j
          = (prev.get? j).map (fun r => { r with isStale := true }))
    ∧ flushList toAdd prev = (toAdd ++ markOlderStale prev).take 20 := by
  refine ⟨?_, ?_, ?_, rfl⟩
  · rw [flushList, List.length_take]
    exact min_le_left _ _
  · intro h
    simp [markOlderStale, Nat.not_lt.mpr h]
  · intro h j hj
    simp only [markOlderStale, if_pos h]
    rw [markFromIdx_get? prev 0 j]
    simp [hj]

/-- Witness for C5 amended: in a sixteen-record previous list, the record at
index 11 is marked stale by the flush. -/
theorem claim_C5_amended_witness :
    (markOlderStale prevSixteen).get? 11
      = (prevSixteen.get? 11).map (fun r => { r with isStale := true }) :=
  (claim_C5_amended [] prevSixteen).2.2.1 (by decide) 11 (by decide)

/-- C6 counterexample: a recorder cycle is in progress when stopListening
runs; stopListening synchronously clears the flag and releases the microphone
(mic already off, queue still empty), yet the cycle's onstop handler then
still admits its chunk — a segment is admitted after stop, and the microphone
was released before that chunk's call could settle (the settlement only
happens later, emptying the queue); stop never awaited it. -/
theorem claim_C6_counterexample :
    (runSession 2 c6StopTrace).micOn = false
    ∧ (runSession 2 c6StopTrace).processingQueue.length = 0
    ∧ (runSession 2 c6AdmitTrace).processingQueue.length = 1
    ∧ (runSession 2 c6AdmitTrace).micOn = false
    ∧ (runSession 2 (c6AdmitTrace ++ [SessionEvent.settle 1])).processingQueue.length
        = 0 := by
  decide

/-- C6 amended: stopListening synchronously clears the continuous-recording
flag and releases the microphone without awaiting in-flight settlements, and
once the flag is cleared no new recorder cycle starts; but a cycle already in
progress at stop time can still admit its chunk afterwards, and the only wait
on outstanding promises is a fire-and-forget completion log, not a barrier
before the microphone release. -/
theorem claim_C6_amended (maxConcurrent : Nat) (s : SessionState) (id : Nat) :
    (sessionStep maxConcurrent s SessionEvent.stopListening).micOn = false
    ∧ (sessionStep maxConcurrent s SessionEvent.stopListening).continuousRecording = false
    ∧ (s.continuousRecording = false →
        sessionStep maxConcurrent s (SessionEvent.startCycle id) = s) := by
  refine ⟨rfl, rfl, ?_⟩
  intro h
  simp [sessionStep, h]

/-- Witness for C6 amended: in a stopped session, a recordChunk tick starts no
new recorder cycle. -/
theorem claim_C6_amended_witness :
    sessionStep 2 stoppedSession (SessionEvent.startCycle 5) = stoppedSession :=
  (claim_C6_amended 2 stoppedSession 5).2.2 (by decide)

end LiveInterview
